import Mathlib

/-!
Shallow embedding of `sqlalchemy_zdb/compiler.py`: the expression-tree-to-text
compiler that renders SQLAlchemy predicate trees into the ZomboDB query
dialect.  Python strings are modelled as Lean `String` (lists of characters),
Python `int` as `Int`, and every `raise` as an `Except.error` carrying the
exception message.  The two mutable side channels of the source (`tables`, a
set of table names, and `format_args`, a list of deferred parameter
expressions) are threaded explicitly as a `CState` value; the Python `set` is
modelled as an insertion-ordered duplicate-free list, which preserves the only
observations the source makes of it (membership, size, and `pop()` on a
singleton).
-/

/-- The apostrophe character (`'`), used pervasively by the output syntax. -/
def aposC : Char := Char.ofNat 39

/-- One-character string holding an apostrophe. -/
def apos : String := String.singleton aposC

/-- Values carried by a SQLAlchemy `BindParameter` (Python objects, tagged by
the `isinstance` classes the source tests for).  `bool` is a separate tag even
though Python's `bool` is a subclass of `int`; every `isinstance(_, int)` test
in the embedding is made to accept it, mirroring Python. -/
inductive PyVal where
  /-- a Python `str` -/
  | str (s : String)
  /-- a Python `int` (not `bool`) -/
  | int (i : Int)
  /-- a Python `bool`; `isinstance(b, int)` is `True` in Python -/
  | bool (b : Bool)
  /-- a compiled regular expression (`re._pattern_type`), carrying `.pattern` -/
  | regex (pattern : String)
  /-- a `ZdbLiteral`, carrying `.literal` -/
  | zdbLiteral (lit : String)
  /-- an object with a `.table` attribute whose `__tablename__` is given
  (the table-establishing first parameter of `zdb_raw_query`) -/
  | tableRef (tablename : String)
  /-- a `DeclarativeMeta` mapped class with the given `__tablename__`
  (accepted by `compile_zdb_score`) -/
  | declMeta (tablename : String)
  /-- any other Python value (e.g. `None`, `float`) -/
  | noneVal
deriving DecidableEq

/-- A mapped column: the `.table.name` and `.name` attributes the source
reads off SQLAlchemy `Column` / `AnnotatedColumn` objects. -/
structure ColRef where
  table : String
  name : String
deriving DecidableEq

/-- Abstract comparison-operator token of a `BinaryExpression`. -/
inductive OpTag where
  | eq
  | gt
  | unknownOp (name : String)
deriving DecidableEq

/-- An entry of `COMPARE_OPERATORS`: either a literal infix fragment or a
specialized rendering function (`inspect.isfunction` distinguishes them). -/
inductive OperEntry where
  | lit (s : String)
  | fnEq
deriving DecidableEq

/-- Modelled from the spec: `sqlalchemy_zdb/operators.py` (the
`COMPARE_OPERATORS` table) is not part of the sources; only
`compiler.py` is.  Per §4.2 of the spec an entry is either "a literal infix
string (e.g. the dialect's \"greater-than\" token)" or "a specialized
rendering function"; the §8 example `posts ==> '(title="hello world")'` fixes
the equality entry to be a rendering function producing a parenthesized
comparison with the right-hand text double-quoted verbatim.  Unknown operator
tokens are absent from the table. -/
def COMPARE_OPERATORS : OpTag → Option OperEntry
  | .eq => some .fnEq
  | .gt => some (.lit " > ")
  | .unknownOp _ => none

/-- Display name of an operator token (stands in for Python's repr of the
operator function in the "Unsupported binary operator %s" message). -/
def opName : OpTag → String
  | .eq => "eq"
  | .gt => "gt"
  | .unknownOp n => n

/-- Operator of a SQLAlchemy `BooleanClauseList` (`operator.and_`,
`operator.or_`, or anything else). -/
inductive BoolOp where
  | and_
  | or_
  | otherOp
deriving DecidableEq

/-- Expression-tree nodes: the SQLAlchemy clause variants that
`compile_clause` / `compile_zdb_query` dispatch on. -/
inductive Clause where
  /-- `BindParameter` with its `.value` -/
  | bindParam (value : PyVal)
  /-- SQLAlchemy `True_` -/
  | true_
  /-- SQLAlchemy `False_` -/
  | false_
  /-- `TextClause`, carrying `.text` -/
  | textClause (text : String)
  /-- `BinaryExpression`: `.left` (a column; `leftAnnotated` records whether it
  is an `AnnotatedColumn`), `.operator`, `.right` -/
  | binary (left : ColRef) (leftAnnotated : Bool) (op : OpTag) (right : Clause)
  /-- `BooleanClauseList` with `.operator` and `.clauses` -/
  | booleanList (op : BoolOp) (clauses : List Clause)
  /-- a bare `Column` (`AnnotatedColumn` included, it is a subclass) -/
  | column (col : ColRef) (annotated : Bool)
  /-- `Grouping` whose `.element` is a list of bind parameters; each element's
  `.value` is kept -/
  | grouping (elems : List PyVal)
  /-- SQLAlchemy `Null` -/
  | null
  /-- `ZdbTable`, carrying `.table` -/
  | zdbTable (table : String)

/-- The two side channels accumulated during one compilation: the set of
referenced table names (insertion-ordered, duplicate-free) and the list of
deferred format arguments. -/
structure CState where
  tables : List String
  format_args : List String
deriving DecidableEq

/-- Python `tables.add(t)`: insert into the set (no-op when present). -/
def CState.addTable (st : CState) (t : String) : CState :=
  if t ∈ st.tables then st else { st with tables := st.tables ++ [t] }

/-- Stands in for SQLAlchemy's `compiler.process` on a column (an external
collaborator): produces the driver-level SQL text of the column. -/
abbrev ProcessFn := ColRef → String

/-! ## Token escaper (`escape_tokens`) -/

/-- The ordered list of reserved characters of `escape_tokens`
(`_escape_tokens` in the source). -/
def _escape_tokens : List Char :=
  ['\'', '"', ':', '*', '~', '?', '!', '%', '&', '(', ')', ',',
   '<', '=', '>', '[', ']', '^', Char.ofNat 123, Char.ofNat 125,
   ' ', '\r', '\n', '\t', Char.ofNat 12]

/-- Python `inp.replace(tok, "\\" + tok)` for a one-character needle: put a
backslash before every occurrence of `tok`. -/
def replace_token (tok : Char) (l : List Char) : List Char :=
  l.flatMap (fun ch => if ch = tok then ['\\', tok] else [ch])

/-- `escape_tokens` on the character list: first strip all apostrophes
(`inp.replace("'", "")`), then run the replacement loop over
`_escape_tokens` in order. -/
def escape_tokens_list (l : List Char) : List Char :=
  _escape_tokens.foldl (fun acc tok => replace_token tok acc)
    (l.filter (fun ch => ch ≠ '\''))

/-- `escape_tokens` on strings. -/
def escape_tokens (s : String) : String := ⟨escape_tokens_list s.data⟩

/-! ## Leaf renderers -/

/-- `compile_column_clause`: push the value-extraction expression
`replace(<processed column>, '"', '')` onto `format_args` and return the
placeholder text `"%%s"` (the `%%` reaches the output verbatim; the DBAPI
layer later collapses it). -/
def compile_column_clause (c : ColRef) (π : ProcessFn) (st : CState) :
    String × CState :=
  ("\"%%s\"",
   { st with format_args := st.format_args ++
      ["replace(" ++ π c ++ ", " ++ apos ++ "\"" ++ apos ++ ", " ++ apos ++ apos ++ ")"] })

/-- Rendering of one `Grouping` element: text double-quoted, `int` via
`str()`.  Python's `str()` of a `bool` is `True`/`False`, and a `bool` passes
the `isinstance(_, int)` test. -/
def render_scalar : PyVal → String
  | .str s => "\"" ++ s ++ "\""
  | .int i => toString i
  | .bool b => if b then "True" else "False"
  | _ => ""

/-- A `Grouping` element accepted by `compile_grouping`: `str`, `int`, or
`bool` (the latter because Python's `bool` is a subclass of `int`). -/
def groupable : PyVal → Bool
  | .str _ => true
  | .int _ => true
  | .bool _ => true
  | _ => false

/-- `compile_grouping`: parenthesized comma-joined list of the element
values; the first element that is neither `str` nor `int` (`bool` included)
aborts with "Unsupported type for IN".  The source's `compiler`/`tables`/
`format_args` parameters are never read or written by its body, so they are
omitted here. -/
def compile_grouping (elems : List PyVal) : Except String String := do
  let values ← goVals elems
  .ok ("(" ++ String.intercalate "," values ++ ")")
where goVals : List PyVal → Except String (List String)
  | [] => .ok []
  | e :: rest =>
      if groupable e then do
        let vs ← goVals rest
        .ok (render_scalar e :: vs)
      else .error "Unsupported type for IN"

/-! ## Limit/order builder (`compile_limit`) -/

/-- A Python value passed as `offset`/`limit`: an `int` or anything else. -/
inductive LimitVal where
  | int (i : Int)
  | nonInt
deriving DecidableEq

/-- The `order_by` argument: a `ZdbScore` (with its `_zdb_direction` string),
a `UnaryExpression` over a column (name, `asc`/`desc` modifier, and whether
the column's type is `ZdbColumn`), or any other object. -/
inductive OrderArg where
  | score (direction : String)
  | unary (colName : String) (asc : Bool) (isZdbColumn : Bool)
  | otherExpr
deriving DecidableEq

/-- `compile_limit`: renders `#limit(<col> <dir>, <offset>, <limit>) `.
`None` models the Python default `order_by=None`. -/
def compile_limit (offset limit : LimitVal) (order_by : Option OrderArg) :
    Except String String :=
  match offset, limit with
  | .int o, .int l =>
    match order_by with
    | none => .error "Expected UnaryExpression or ZdbScore for zdb LIMIT"
    | some (.score dir) =>
        .ok ("#limit(_score " ++ dir ++ ", " ++ toString o ++ ", " ++
          toString l ++ ") ")
    | some (.unary colName asc isZdb) =>
        let direction := if asc then "asc" else "desc"
        if isZdb then
          .ok ("#limit(" ++ colName ++ " " ++ direction ++ ", " ++ toString o ++
            ", " ++ toString l ++ ") ")
        else .error "Expected ZdbColumn for zdb LIMIT"
    | some .otherExpr => .error "Unexpected expression"
  | _, _ => .error "Expected int for zdb LIMIT offset and/or limit"

/-! ## Clause renderer (`compile_clause` and friends) -/

/-- `compile_clause`: the recursive dispatch over clause variants.  The
`BinaryExpression` branch inlines `compile_binary_clause` and the
`BooleanClauseList` branch inlines `compile_boolean_clause_list` (both are
also provided as named wrappers below, with definitional bridge lemmas), so
that the recursion is structural and computable.  The equality operator's
rendering function comes from the spec-modelled `COMPARE_OPERATORS`. -/
def compile_clause (c : Clause) (π : ProcessFn) (st : CState) :
    Except String (String × CState) :=
  match c with
  | .bindParam (.str s) => .ok ("\"" ++ escape_tokens s ++ "\"", st)
  | .bindParam (.regex p) => .ok ("\"" ++ p ++ "\"", st)
  | .bindParam (.zdbLiteral l) => .ok (l, st)
  | .bindParam (.int i) => .ok (toString i, st)
  | .bindParam (.bool b) => .ok (if b then "True" else "False", st)
  | .bindParam _ => .error "Unsupported clause"
  | .true_ => .ok ("true", st)
  | .false_ => .ok ("false", st)
  | .textClause t => .ok (t, st)
  | .binary left leftAnnotated op right =>
      if !leftAnnotated then .error "Incorrect field"
      else
        match COMPARE_OPERATORS op with
        | none => .error ("Unsupported binary operator " ++ opName op)
        | some entry =>
          let st1 := st.addTable left.table
          match entry with
          | .lit s => do
              let (r, st2) ← compile_clause right π st1
              .ok (left.name ++ s ++ r, st2)
          | .fnEq =>
              match right with
              | .bindParam (.str sv) =>
                  .ok ("(" ++ left.name ++ "=\"" ++ sv ++ "\")", st1)
              | _ => do
                  let (r, st2) ← compile_clause right π st1
                  .ok ("(" ++ left.name ++ "=" ++ r ++ ")", st2)
  | .booleanList op cs => do
      let (texts, st2) ← goList cs π st
      match op with
      | .or_ => .ok ("(" ++ String.intercalate " or " texts ++ ")", st2)
      | .and_ => .ok ("(" ++ String.intercalate " and " texts ++ ")", st2)
      | .otherOp => .error "Unsupported boolean clause"
  | .column col _ => .ok (compile_column_clause col π st)
  | .grouping elems => do
      let g ← compile_grouping elems
      .ok (g, st)
  | .null => .ok ("NULL", st)
  | .zdbTable t => .ok (t, st)
where goList : List Clause → ProcessFn → CState → Except String (List String × CState)
  | [], _, st => .ok ([], st)
  | c :: rest, π, st => do
      let (t, st2) ← compile_clause c π st
      let (ts, st3) ← goList rest π st2
      .ok (t :: ts, st3)

/-- `compile_binary_clause` as a named function (the source's standalone
definition); `compile_clause` on a `BinaryExpression` is definitionally this. -/
def compile_binary_clause (left : ColRef) (leftAnnotated : Bool) (op : OpTag)
    (right : Clause) (π : ProcessFn) (st : CState) :
    Except String (String × CState) :=
  if !leftAnnotated then .error "Incorrect field"
  else
    match COMPARE_OPERATORS op with
    | none => .error ("Unsupported binary operator " ++ opName op)
    | some entry =>
      let st1 := st.addTable left.table
      match entry with
      | .lit s => do
          let (r, st2) ← compile_clause right π st1
          .ok (left.name ++ s ++ r, st2)
      | .fnEq =>
          match right with
          | .bindParam (.str sv) =>
              .ok ("(" ++ left.name ++ "=\"" ++ sv ++ "\")", st1)
          | _ => do
              let (r, st2) ← compile_clause right π st1
              .ok ("(" ++ left.name ++ "=" ++ r ++ ")", st2)

/-- `compile_boolean_clause_list` as a named function (the source's standalone
definition): render every child in order, then join with the boolean
operator's text and parenthesize. -/
def compile_boolean_clause_list (op : BoolOp) (cs : List Clause)
    (π : ProcessFn) (st : CState) : Except String (String × CState) := do
  let (texts, st2) ← compile_clause.goList cs π st
  match op with
  | .or_ => .ok ("(" ++ String.intercalate " or " texts ++ ")", st2)
  | .and_ => .ok ("(" ++ String.intercalate " and " texts ++ ")", st2)
  | .otherOp => .error "Unsupported boolean clause"

/-! ## Raw-query compiler (`compile_zdb_query`) -/

/-- The element compiled by `compile_zdb_query`: its clause list, the
optional `_zdb_order_by` attribute, and the `_zdb_offset`/`_zdb_limit`
attributes (`none` models both a missing attribute and a value failing the
`isinstance(_, (UnaryExpression, ZdbScore))` test, which the source treats
alike). -/
structure ZdbRaw where
  clauses : List Clause
  order_by : Option OrderArg
  offset : LimitVal
  limit : LimitVal

/-- Whether `_zdb_order_by` is present and of an accepted class. -/
def zdb_order_matches : Option OrderArg → Bool
  | some (.score _) => true
  | some (.unary _ _ _) => true
  | _ => false

/-- The order/limit prefix of a raw query: `""` unless an accepted
`_zdb_order_by` is attached, in which case `compile_limit` runs. -/
def zdb_limit_value (element : ZdbRaw) : Except String String :=
  if zdb_order_matches element.order_by then
    compile_limit element.offset element.limit element.order_by
  else .ok ""

/-- The `for i, c in enumerate(element.clauses)` loop of `compile_zdb_query`:
per-clause table bookkeeping and the `add_to_query` filter, accumulating the
rendered clause texts. -/
def zdb_query_loop (π : ProcessFn) :
    Nat → List Clause → List String → CState →
    Except String (List String × CState)
  | _, [], query, st => .ok (query, st)
  | i, c :: rest, query, st =>
    match c with
    | .binary left _ _ _ => do
        let st1 := st.addTable left.table
        let (t, st2) ← compile_clause c π st1
        zdb_query_loop π (i+1) rest (query ++ [t]) st2
    | .bindParam v =>
        match v with
        | .tableRef tname =>
            if i > 0 then .error "Table can be specified only as first param"
            else zdb_query_loop π (i+1) rest query (st.addTable tname)
        | _ => do
            let (t, st2) ← compile_clause c π st
            zdb_query_loop π (i+1) rest (query ++ [t]) st2
    | .booleanList _ _ => do
        let (t, st2) ← compile_clause c π st
        zdb_query_loop π (i+1) rest (query ++ [t]) st2
    | .column _ _ => do
        let (t, st2) ← compile_clause c π st
        zdb_query_loop π (i+1) rest (query ++ [t]) st2
    | _ => .error "Unsupported filter"

/-- `compile_zdb_query`: run the clause loop, enforce the table checks
(`"No filters passed"` when the table set is empty, `"Different tables
passed"` when it has more than one element), compute the limit prefix, and
assemble `<table> ==> '...'`, wrapping in `format('...', args)` exactly when
`format_args` is non-empty. -/
def compile_zdb_query (element : ZdbRaw) (π : ProcessFn) :
    Except String String := do
  let (query, st) ← zdb_query_loop π 0 element.clauses [] ⟨[], []⟩
  if st.tables.length = 0 then
    .error "No filters passed"
  else if st.tables.length > 1 then
    .error "Different tables passed"
  else
    let table := st.tables.headD ""
    let limit ← zdb_limit_value element
    if st.format_args ≠ [] then
      .ok (table ++ " ==> " ++ apos ++ limit ++ "format(" ++ apos ++
        String.intercalate " and " query ++ apos ++ ", " ++
        String.intercalate ", " st.format_args ++ ")" ++ apos)
    else
      .ok (table ++ " ==> " ++ apos ++ limit ++
        String.intercalate " and " query ++ apos)

/-! ## Score compiler (`compile_zdb_score`) -/

/-- `compile_zdb_score`: requires exactly one clause, a bind parameter whose
value is a `DeclarativeMeta`; renders `zdb_score('<table>', <table>.ctid)`. -/
def compile_zdb_score (clauses : List Clause) : Except String String :=
  match clauses with
  | [c] =>
      match c with
      | .bindParam (.declMeta t) =>
          .ok ("zdb_score(" ++ apos ++ t ++ apos ++ ", " ++ t ++ ".ctid)")
      | _ => .error "Incorrect param"
  | _ => .error "Incorrect params"

/-- Example process function used by concrete instances below. -/
def procQualified : ProcessFn := fun c => c.table ++ "." ++ c.name

/-! ## Auxiliary definitions for the proofs -/

/-- One left-to-right pass that escapes every character of `ts` at once; the
sequential replacement loop of `escape_tokens` is proved equal to it below. -/
def escape_single_pass (ts : List Char) (l : List Char) : List Char :=
  l.flatMap (fun ch => if ch ∈ ts then ['\\', ch] else [ch])

/-- The "every reserved character is preceded by exactly one backslash"
property of a character list `p`: at every position holding a reserved
character, the previous character is a backslash and the one before that (when
the position is not 1) is not. -/
def reserved_escaped_once (p : List Char) : Prop :=
  ∀ i, i < p.length → (p.getD i 'a' ∈ _escape_tokens →
    0 < i ∧ p.getD (i-1) 'a' = '\\' ∧ (i = 1 ∨ p.getD (i-2) 'a' ≠ '\\'))

instance (p : List Char) : Decidable (reserved_escaped_once p) :=
  Nat.decidableBallLT p.length _

/-! ## Placeholder / format-argument alignment (C9) -/

/-- Number of percent characters in a string.  Every placeholder emitted by
`compile_column_clause` is the five-character text `"%%s"` holding exactly two
percent characters, so over percent-clean input trees the placeholder count of
a rendered text is half its percent count. -/
def countPct (s : String) : Nat := s.data.countP (fun ch => ch == '%')

/-- A string free of percent characters. -/
def noPct (s : String) : Bool := s.data.all (fun ch => ch != '%')

/-- A `Grouping` element whose rendering is percent-free. -/
def cleanPyVal : PyVal → Bool
  | .str s => noPct s
  | .int i => noPct (toString i)
  | _ => true

/-- A clause all of whose embedded text pieces (literals, regex patterns, raw
fragments, column names, table names) are percent-free, so that the only
percent signs in its rendering are the ones of emitted placeholders. -/
def cleanClause : Clause → Bool
  | .bindParam (.str s) => noPct s
  | .bindParam (.regex p) => noPct p
  | .bindParam (.zdbLiteral l) => noPct l
  | .bindParam (.int i) => noPct (toString i)
  | .bindParam _ => true
  | .true_ => true
  | .false_ => true
  | .textClause t => noPct t
  | .binary left _ _ right => noPct left.name && cleanClause right
  | .booleanList _ cs => goClean cs
  | .column _ _ => true
  | .grouping elems => elems.all cleanPyVal
  | .null => true
  | .zdbTable t => noPct t
where goClean : List Clause → Bool
  | [] => true
  | c :: rest => cleanClause c && goClean rest

/-! ## Theorems -/

theorem compile_clause_binary (left : ColRef) (la : Bool) (op : OpTag)
    (right : Clause) (π : ProcessFn) (st : CState) :
    compile_clause (.binary left la op right) π st =
      compile_binary_clause left la op right π st := rfl

theorem compile_clause_booleanList (op : BoolOp) (cs : List Clause)
    (π : ProcessFn) (st : CState) :
    compile_clause (.booleanList op cs) π st =
      compile_boolean_clause_list op cs π st := rfl


/-! ## Facts about the token escaper -/

theorem replace_token_single_pass (t : Char) (rest : List Char)
    (hbs : '\\' ∉ rest) (ht : t ∉ rest) (l : List Char) :
    escape_single_pass rest (replace_token t l) =
      escape_single_pass (t :: rest) l := by
  induction l with
  | nil => rfl
  | cons ch l' ih =>
      simp only [replace_token, escape_single_pass, List.flatMap_cons] at ih ⊢
      rw [List.flatMap_append, ih]
      by_cases hch : ch = t
      · subst hch
        simp [hbs, ht]
      · simp only [if_neg hch]
        by_cases hmem : ch ∈ rest
        · simp [hmem, List.mem_cons, hch]
        · simp [hmem, List.mem_cons, hch]

theorem foldl_replace_eq_single_pass :
    ∀ (ts : List Char), ts.Nodup → '\\' ∉ ts → ∀ l : List Char,
      ts.foldl (fun acc tok => replace_token tok acc) l =
        escape_single_pass ts l := by
  intro ts
  induction ts with
  | nil =>
      intro _ _ l
      simp [escape_single_pass]
  | cons t rest ih =>
      intro hnd hbs l
      rw [List.nodup_cons] at hnd
      have hbs' : '\\' ∉ rest := fun h => hbs (List.mem_cons_of_mem _ h)
      simp only [List.foldl_cons]
      rw [ih hnd.2 hbs' (replace_token t l)]
      exact replace_token_single_pass t rest hbs' hnd.1 l

theorem mem_escape_single_pass {ts l : List Char} {x : Char}
    (hx : x ∈ escape_single_pass ts l) : x = '\\' ∨ x ∈ l := by
  induction l with
  | nil => simp [escape_single_pass] at hx
  | cons ch l' ih =>
      simp only [escape_single_pass, List.flatMap_cons, List.mem_append] at hx
      rcases hx with hx | hx
      · by_cases hmem : ch ∈ ts
        · rw [if_pos hmem] at hx
          simp only [List.mem_cons, List.not_mem_nil, or_false] at hx
          rcases hx with h | h
          · exact Or.inl h
          · exact Or.inr (h ▸ List.mem_cons_self _ _)
        · rw [if_neg hmem] at hx
          simp only [List.mem_cons, List.not_mem_nil, or_false] at hx
          exact Or.inr (hx ▸ List.mem_cons_self _ _)
      · rcases ih hx with h | h
        · exact Or.inl h
        · exact Or.inr (List.mem_cons_of_mem _ h)

theorem escape_tokens_list_eq_single_pass (l : List Char) :
    escape_tokens_list l =
      escape_single_pass _escape_tokens (l.filter (fun ch => ch ≠ '\'')) :=
  foldl_replace_eq_single_pass _escape_tokens (by decide) (by decide) _

theorem escape_single_pass_escaped_once :
    ∀ l : List Char, '\\' ∉ l →
    ∀ i, (escape_single_pass _escape_tokens l).getD i 'a' ∈ _escape_tokens →
      0 < i ∧ (escape_single_pass _escape_tokens l).getD (i-1) 'a' = '\\' ∧
      (i = 1 ∨ (escape_single_pass _escape_tokens l).getD (i-2) 'a' ≠ '\\') := by
  intro l
  induction l with
  | nil =>
      intro _ i h
      simp only [escape_single_pass, List.flatMap_nil, List.getD_nil] at h
      exact absurd h (by decide)
  | cons ch l' ih =>
      intro hbsl i h
      have hch : ch ≠ '\\' := fun hc => hbsl (hc ▸ List.mem_cons_self _ _)
      have hl' : '\\' ∉ l' := fun hm => hbsl (List.mem_cons_of_mem _ hm)
      have IH := ih hl'
      by_cases hmem : ch ∈ _escape_tokens
      · have hform : escape_single_pass _escape_tokens (ch :: l') =
            '\\' :: ch :: escape_single_pass _escape_tokens l' := by
          simp [escape_single_pass, hmem]
        rw [hform] at h ⊢
        match i, h with
        | 0, h =>
            rw [List.getD_cons_zero] at h
            exact absurd h (by decide)
        | 1, h =>
            exact ⟨Nat.one_pos, by simp, Or.inl rfl⟩
        | (k+2), h =>
            rw [List.getD_cons_succ, List.getD_cons_succ] at h
            obtain ⟨hk0, hk1, hk2⟩ := IH k h
            obtain ⟨m, rfl⟩ : ∃ m, k = m + 1 := ⟨k - 1, by omega⟩
            refine ⟨by omega, ?_, Or.inr ?_⟩
            · simpa using hk1
            · match m with
              | 0 => simpa using hch
              | (n+1) =>
                  rcases hk2 with h1 | h2
                  · exact absurd h1 (by omega)
                  · simpa using h2
      · have hform : escape_single_pass _escape_tokens (ch :: l') =
            ch :: escape_single_pass _escape_tokens l' := by
          simp [escape_single_pass, hmem]
        rw [hform] at h ⊢
        match i, h with
        | 0, h =>
            rw [List.getD_cons_zero] at h
            exact absurd h hmem
        | (k+1), h =>
            rw [List.getD_cons_succ] at h
            obtain ⟨hk0, hk1, hk2⟩ := IH k h
            obtain ⟨m, rfl⟩ : ∃ m, k = m + 1 := ⟨k - 1, by omega⟩
            refine ⟨by omega, ?_, Or.inr ?_⟩
            · simpa using hk1
            · match m with
              | 0 => simpa using hch
              | (n+1) =>
                  rcases hk2 with h1 | h2
                  · exact absurd h1 (by omega)
                  · simpa using h2

/-- C5 (counterexample): the claim "for every input string containing at
least one reserved character, the escaped output contains no apostrophe and
every reserved character is preceded by exactly one backslash" is false: on
the two-character input backslash-space, the space in the output
(backslash-backslash-space) is preceded by two backslashes. -/
theorem escape_tokens_exactly_once_counterexample :
    ¬ (∀ l : List Char, (∃ c ∈ l, c ∈ _escape_tokens) →
        '\'' ∉ escape_tokens_list l ∧
          reserved_escaped_once (escape_tokens_list l)) := by
  intro hclaim
  have h := hclaim ['\\', ' '] ⟨' ', by decide, by decide⟩
  exact absurd h.2 (by decide)

/-- C5 (amended): for every input containing at least one reserved
character, the escaped output contains no apostrophe; and when the input
additionally contains no backslash of its own, every reserved character of
the output is preceded by exactly one backslash. -/
theorem escape_tokens_escapes_each_reserved_once (l : List Char)
    (_hres : ∃ c ∈ l, c ∈ _escape_tokens) :
    '\'' ∉ escape_tokens_list l ∧
      ('\\' ∉ l → reserved_escaped_once (escape_tokens_list l)) := by
  constructor
  · intro hmem
    rw [escape_tokens_list_eq_single_pass] at hmem
    rcases mem_escape_single_pass hmem with h | h
    · exact absurd h (by decide)
    · have := List.of_mem_filter h
      simp at this
  · intro hbs i _ hres
    rw [escape_tokens_list_eq_single_pass] at hres ⊢
    exact escape_single_pass_escaped_once _
      (fun hm => hbs (List.mem_of_mem_filter hm)) i hres

/-- Witness for C5's amended theorem at the concrete input `a b`. -/
theorem escape_tokens_escapes_each_reserved_once_witness :
    '\'' ∉ escape_tokens_list ['a', ' ', 'b'] ∧
      ('\\' ∉ (['a', ' ', 'b'] : List Char) →
        reserved_escaped_once (escape_tokens_list ['a', ' ', 'b'])) :=
  escape_tokens_escapes_each_reserved_once ['a', ' ', 'b']
    ⟨' ', by decide, by decide⟩

/-! ## Claim theorems -/

/-- C3: a Raw Query over table `posts` whose single clause is the comparison
`title = "hello world"` compiles to exactly `posts ==> '(title="hello world")'`
(parenthesized comparison, no spaces around `=`, the space inside the quoted
literal left unescaped). -/
theorem compile_zdb_query_title_hello_world :
    compile_zdb_query
      ⟨[.binary ⟨"posts", "title"⟩ true .eq (.bindParam (.str "hello world"))],
        none, .int 0, .int 0⟩ procQualified =
      .ok ("posts ==> " ++ apos ++ "(title=\"hello world\")" ++ apos) := rfl

/-- C2 (counterexample): a Raw Query whose single clause is a
table-establishing marker leaves zero filter clauses after table extraction,
yet the compile does not fail: it returns `posts ==> ''`. -/
theorem compile_zdb_query_marker_only_counterexample :
    compile_zdb_query ⟨[.bindParam (.tableRef "posts")], none, .int 0, .int 0⟩
      procQualified = .ok ("posts ==> " ++ apos ++ apos) := rfl

/-- C2 (amended): the "No filters passed" error is tied to the table set, not
to the clause count: an entirely empty clause list fails with it (no table
was gathered), while a clause list holding only a table marker compiles
successfully to `<table> ==> ''`. -/
theorem compile_zdb_query_empty_behaviour :
    (∀ (element : ZdbRaw) (π : ProcessFn), element.clauses = [] →
      compile_zdb_query element π = .error "No filters passed") ∧
    (∀ (t : String) (off lim : LimitVal) (π : ProcessFn),
      compile_zdb_query ⟨[.bindParam (.tableRef t)], none, off, lim⟩ π =
        .ok (t ++ " ==> " ++ apos ++ apos)) := by
  constructor
  · intro element π h
    obtain ⟨cs, ob, off, lim⟩ := element
    cases h
    rfl
  · intro t off lim π
    have h : compile_zdb_query ⟨[.bindParam (.tableRef t)], none, off, lim⟩ π =
        .ok (t ++ " ==> " ++ apos ++ "" ++ String.intercalate " and " [] ++ apos) := rfl
    rw [h]
    simp [String.intercalate]

/-- Witness for C2's amended theorem: the empty clause list at concrete
arguments. -/
theorem compile_zdb_query_empty_behaviour_witness :
    compile_zdb_query ⟨[], none, .int 0, .int 0⟩ procQualified =
      .error "No filters passed" :=
  compile_zdb_query_empty_behaviour.1 ⟨[], none, .int 0, .int 0⟩ procQualified rfl

/-- C4 (counterexample): a negative `offset` is accepted by `compile_limit`
(only `isinstance(_, int)` is checked, not non-negativity) and is rendered
into the prefix. -/
theorem compile_limit_negative_counterexample :
    compile_limit (.int (-1)) (.int 10) (some (.score "desc")) =
      .ok "#limit(_score desc, -1, 10) " := rfl

/-- C4 (amended): `compile_limit` fails with the int-check error exactly when
`offset` or `limit` is not an integer; any integers — negative ones
included — pass the check and are rendered. -/
theorem compile_limit_int_check :
    (∀ (off lim : LimitVal) (ob : Option OrderArg),
      off = .nonInt ∨ lim = .nonInt →
      compile_limit off lim ob =
        .error "Expected int for zdb LIMIT offset and/or limit") ∧
    (∀ (o l : Int) (dir : String),
      compile_limit (.int o) (.int l) (some (.score dir)) =
        .ok ("#limit(_score " ++ dir ++ ", " ++ toString o ++ ", " ++
          toString l ++ ") ")) := by
  constructor
  · intro off lim ob h
    rcases h with h | h
    · subst h; cases lim <;> rfl
    · subst h; cases off <;> rfl
  · intro o l dir
    rfl

/-- Witness for C4's amended theorem: a non-int offset at concrete
arguments. -/
theorem compile_limit_int_check_witness :
    compile_limit .nonInt (.int 0) none =
      .error "Expected int for zdb LIMIT offset and/or limit" :=
  compile_limit_int_check.1 .nonInt (.int 0) none (Or.inl rfl)

/-- C6 (counterexample): a `Grouping` containing a boolean element does not
fail: Python's `bool` is a subclass of `int`, so `True` passes the
`isinstance(_, int)` test and renders bare as `True`. -/
theorem compile_grouping_bool_counterexample :
    compile_grouping [.bool true] = .ok "(True)" := rfl

/-- C6 (amended): `compile_grouping` renders a parenthesized comma-joined
list — text double-quoted, integers bare, booleans (integers in the host
language) as `True`/`False` — and fails with "Unsupported type for IN"
exactly when some element is none of `str`/`int`/`bool`. -/
theorem compile_grouping_spec :
    (∀ elems : List PyVal, (∀ e ∈ elems, groupable e = true) →
      compile_grouping elems =
        .ok ("(" ++ String.intercalate "," (elems.map render_scalar) ++ ")")) ∧
    (∀ elems : List PyVal, (∃ e ∈ elems, groupable e = false) →
      compile_grouping elems = .error "Unsupported type for IN") := by
  have hgo : ∀ elems : List PyVal, (∀ e ∈ elems, groupable e = true) →
      compile_grouping.goVals elems = .ok (elems.map render_scalar) := by
    intro elems
    induction elems with
    | nil => intro _; rfl
    | cons e rest ih =>
        intro h
        have he := h e (List.mem_cons_self _ _)
        simp only [compile_grouping.goVals, he, if_true, List.map_cons]
        rw [ih (fun x hx => h x (List.mem_cons_of_mem _ hx))]
        rfl
  have hbad : ∀ elems : List PyVal, (∃ e ∈ elems, groupable e = false) →
      compile_grouping.goVals elems = .error "Unsupported type for IN" := by
    intro elems
    induction elems with
    | nil => intro h; obtain ⟨e, he, _⟩ := h; cases he
    | cons e rest ih =>
        intro h
        by_cases hge : groupable e = true
        · obtain ⟨x, hx, hgx⟩ := h
          have hxr : x ∈ rest := by
            rcases List.mem_cons.mp hx with h1 | h1
            · exact absurd hge (by rw [h1] at hgx; simp [hgx])
            · exact h1
          simp only [compile_grouping.goVals, hge, if_true]
          rw [ih ⟨x, hxr, hgx⟩]
          rfl
        · simp only [compile_grouping.goVals, Bool.not_eq_true] at hge ⊢
          rw [hge]
          rfl
  constructor
  · intro elems h
    unfold compile_grouping
    rw [hgo elems h]
    rfl
  · intro elems h
    unfold compile_grouping
    rw [hbad elems h]
    rfl

/-- Witness for C6's amended theorem: a mixed well-typed grouping and a
grouping holding a `None`. -/
theorem compile_grouping_spec_witness :
    compile_grouping [.str "a", .int 3, .bool false] =
      .ok ("(" ++ String.intercalate ","
        ([PyVal.str "a", .int 3, .bool false].map render_scalar) ++ ")") ∧
    compile_grouping [.noneVal] = .error "Unsupported type for IN" :=
  ⟨compile_grouping_spec.1 [.str "a", .int 3, .bool false] (by decide),
   compile_grouping_spec.2 [.noneVal] ⟨.noneVal, by decide, rfl⟩⟩

/-- C7: a successful Raw Query compile references exactly one table, and —
whenever the clause loop itself succeeds — an empty gathered table set makes
the compile fail with "No filters passed" and a table set with more than one
element makes it fail with "Different tables passed". -/
theorem compile_zdb_query_single_table (element : ZdbRaw) (π : ProcessFn) :
    (∀ out, compile_zdb_query element π = .ok out →
      ∃ q st, zdb_query_loop π 0 element.clauses [] ⟨[], []⟩ = .ok (q, st) ∧
        st.tables.length = 1) ∧
    (∀ q st, zdb_query_loop π 0 element.clauses [] ⟨[], []⟩ = .ok (q, st) →
      (st.tables.length = 0 →
        compile_zdb_query element π = .error "No filters passed") ∧
      (st.tables.length > 1 →
        compile_zdb_query element π = .error "Different tables passed")) := by
  constructor
  · intro out hok
    unfold compile_zdb_query at hok
    cases hloop : zdb_query_loop π 0 element.clauses [] ⟨[], []⟩ with
    | error e =>
        rw [hloop] at hok
        simp [Bind.bind, Except.bind] at hok
    | ok p =>
        obtain ⟨q, st⟩ := p
        rw [hloop] at hok
        simp only [Bind.bind, Except.bind] at hok
        by_cases h0 : st.tables.length = 0
        · rw [if_pos h0] at hok; cases hok
        · rw [if_neg h0] at hok
          by_cases h1 : st.tables.length > 1
          · rw [if_pos h1] at hok; cases hok
          · exact ⟨q, st, rfl, by omega⟩
  · intro q st hloop
    constructor
    · intro h0
      unfold compile_zdb_query
      rw [hloop]
      simp only [Bind.bind, Except.bind]
      rw [if_pos h0]
    · intro h1
      unfold compile_zdb_query
      rw [hloop]
      simp only [Bind.bind, Except.bind]
      rw [if_neg (by omega : ¬ st.tables.length = 0), if_pos h1]

/-- Witness for C7 at a two-table Raw Query: the compile fails with
"Different tables passed". -/
theorem compile_zdb_query_single_table_witness :
    compile_zdb_query
      ⟨[.binary ⟨"posts", "a"⟩ true .eq (.bindParam (.str "x")),
        .binary ⟨"users", "b"⟩ true .eq (.bindParam (.str "y"))],
        none, .int 0, .int 0⟩ procQualified =
      .error "Different tables passed" :=
  ((compile_zdb_query_single_table
      ⟨[.binary ⟨"posts", "a"⟩ true .eq (.bindParam (.str "x")),
        .binary ⟨"users", "b"⟩ true .eq (.bindParam (.str "y"))],
        none, .int 0, .int 0⟩ procQualified).2
    ["(a=\"x\")", "(b=\"y\")"] ⟨["posts", "users"], []⟩ rfl).2 (by decide)

/-- C8: the score compiler returns `zdb_score('<t>', <t>.ctid)` for exactly
one clause that is a bound `DeclarativeMeta` reference, and fails on every
other input shape. -/
theorem compile_zdb_score_spec :
    (∀ t : String, compile_zdb_score [.bindParam (.declMeta t)] =
      .ok ("zdb_score(" ++ apos ++ t ++ apos ++ ", " ++ t ++ ".ctid)")) ∧
    (∀ cs : List Clause, (∀ t, cs ≠ [.bindParam (.declMeta t)]) →
      ∃ e, compile_zdb_score cs = .error e) := by
  constructor
  · intro t; rfl
  · intro cs h
    match cs with
    | [] => exact ⟨"Incorrect params", rfl⟩
    | _ :: _ :: _ => exact ⟨"Incorrect params", rfl⟩
    | [c] =>
        cases c with
        | bindParam v =>
            cases v with
            | declMeta t => exact absurd rfl (h t)
            | str s => exact ⟨"Incorrect param", rfl⟩
            | int i => exact ⟨"Incorrect param", rfl⟩
            | bool b => exact ⟨"Incorrect param", rfl⟩
            | regex p => exact ⟨"Incorrect param", rfl⟩
            | zdbLiteral l => exact ⟨"Incorrect param", rfl⟩
            | tableRef t => exact ⟨"Incorrect param", rfl⟩
            | noneVal => exact ⟨"Incorrect param", rfl⟩
        | true_ => exact ⟨"Incorrect param", rfl⟩
        | false_ => exact ⟨"Incorrect param", rfl⟩
        | textClause t => exact ⟨"Incorrect param", rfl⟩
        | binary l a o r => exact ⟨"Incorrect param", rfl⟩
        | booleanList o cs2 => exact ⟨"Incorrect param", rfl⟩
        | column col a => exact ⟨"Incorrect param", rfl⟩
        | grouping es => exact ⟨"Incorrect param", rfl⟩
        | null => exact ⟨"Incorrect param", rfl⟩
        | zdbTable t => exact ⟨"Incorrect param", rfl⟩

/-- Witness for C8 at the empty clause list. -/
theorem compile_zdb_score_spec_witness :
    ∃ e, compile_zdb_score [] = .error e :=
  compile_zdb_score_spec.2 [] (fun _ => by simp)

/-- C10: rendering an embedded `ZdbTable` marker returns its table name and
leaves both the table set and the format-argument list untouched (it never
feeds the single-table check). -/
theorem compile_clause_zdbTable (t : String) (π : ProcessFn) (st : CState) :
    compile_clause (.zdbTable t) π st = .ok (t, st) := rfl

/-- C1 (counterexample): with one format argument and a non-empty order/limit
prefix, the compiled string places the prefix *before* the `format(` call
(inside the outer quotes), not inside `format`'s quoted first argument as the
claim states. -/
theorem compile_zdb_query_format_prefix_counterexample :
    compile_zdb_query
      ⟨[.bindParam (.tableRef "posts"), .column ⟨"posts", "title"⟩ false],
        some (.score "desc"), .int 0, .int 10⟩ procQualified =
      .ok ("posts ==> " ++ apos ++ "#limit(_score desc, 0, 10) format(" ++
        apos ++ "\"%%s\"" ++ apos ++ ", replace(posts.title, " ++ apos ++
        "\"" ++ apos ++ ", " ++ apos ++ apos ++ "))" ++ apos) ∧
    ("posts ==> " ++ apos ++ "#limit(_score desc, 0, 10) format(" ++
        apos ++ "\"%%s\"" ++ apos ++ ", replace(posts.title, " ++ apos ++
        "\"" ++ apos ++ ", " ++ apos ++ apos ++ "))" ++ apos) ≠
      ("posts ==> " ++ apos ++ "format(" ++ apos ++
        "#limit(_score desc, 0, 10) " ++ "\"%%s\"" ++ apos ++
        ", replace(posts.title, " ++ apos ++ "\"" ++ apos ++ ", " ++ apos ++
        apos ++ "))" ++ apos) :=
  ⟨rfl, by decide⟩

/-- C1 (amended): when at least one format argument was accumulated, the
output wraps the filter text in the parameter-substitution call with the
order/limit prefix placed *before* the call, inside the outer quotes:
`<table> ==> '<orderPrefix?>format('<clauses joined by " and ">', <args>)'`. -/
theorem compile_zdb_query_format_wrapping (element : ZdbRaw) (π : ProcessFn)
    (q : List String) (st : CState) (t : String) (lim : String)
    (hloop : zdb_query_loop π 0 element.clauses [] ⟨[], []⟩ = .ok (q, st))
    (htab : st.tables = [t])
    (hlim : zdb_limit_value element = .ok lim)
    (hargs : st.format_args ≠ []) :
    compile_zdb_query element π =
      .ok (t ++ " ==> " ++ apos ++ lim ++ "format(" ++ apos ++
        String.intercalate " and " q ++ apos ++ ", " ++
        String.intercalate ", " st.format_args ++ ")" ++ apos) := by
  unfold compile_zdb_query
  rw [hloop]
  simp only [Bind.bind, Except.bind]
  simp only [htab, List.length_cons, List.length_nil]
  rw [if_neg (by omega : ¬ (0 + 1 = 0)), if_neg (by omega : ¬ (0 + 1 > 1))]
  rw [hlim]
  simp only [Except.bind, List.headD_cons]
  rw [if_pos hargs]

/-- Witness for C1's amended theorem at a concrete query with a deferred
column parameter and a relevance-score order. -/
theorem compile_zdb_query_format_wrapping_witness :
    compile_zdb_query
      ⟨[.bindParam (.tableRef "posts"), .column ⟨"posts", "title"⟩ false],
        some (.score "desc"), .int 0, .int 10⟩ procQualified =
      .ok ("posts" ++ " ==> " ++ apos ++ "#limit(_score desc, 0, 10) " ++
        "format(" ++ apos ++ String.intercalate " and " ["\"%%s\""] ++ apos ++
        ", " ++ String.intercalate ", "
          (CState.mk ["posts"] ["replace(posts.title, " ++ apos ++ "\"" ++
            apos ++ ", " ++ apos ++ apos ++ ")"]).format_args ++ ")" ++ apos) :=
  compile_zdb_query_format_wrapping
    ⟨[.bindParam (.tableRef "posts"), .column ⟨"posts", "title"⟩ false],
      some (.score "desc"), .int 0, .int 10⟩ procQualified
    ["\"%%s\""]
    ⟨["posts"], ["replace(posts.title, " ++ apos ++ "\"" ++ apos ++ ", " ++
      apos ++ apos ++ ")"]⟩
    "posts" "#limit(_score desc, 0, 10) " rfl rfl rfl (by simp)

theorem countPct_append (a b : String) :
    countPct (a ++ b) = countPct a + countPct b := by
  simp [countPct, String.data_append]

theorem countPct_intercalate_go (sep : String) (hs : countPct sep = 0) :
    ∀ (l : List String) (acc : String),
      countPct (String.intercalate.go acc sep l) =
        countPct acc + (l.map countPct).sum := by
  intro l
  induction l with
  | nil => intro acc; simp [String.intercalate.go]
  | cons a as ih =>
      intro acc
      simp [String.intercalate.go, ih, countPct_append, hs]
      omega

theorem countPct_intercalate (sep : String) (hs : countPct sep = 0)
    (l : List String) :
    countPct (String.intercalate sep l) = (l.map countPct).sum := by
  cases l with
  | nil => simp [String.intercalate]; rfl
  | cons a as =>
      simp [String.intercalate, countPct_intercalate_go sep hs, countPct_append]

theorem countPct_eq_zero_of_noPct (s : String) (h : noPct s = true) :
    countPct s = 0 := by
  simp only [noPct, List.all_eq_true] at h
  simp only [countPct, List.countP_eq_zero]
  intro a ha
  have := h a ha
  simpa using this

theorem CState.addTable_format_args (st : CState) (t : String) :
    (st.addTable t).format_args = st.format_args := by
  unfold CState.addTable
  split <;> rfl

theorem countPct_escape_tokens (s : String) (h : noPct s = true) :
    countPct (escape_tokens s) = 0 := by
  simp only [countPct, List.countP_eq_zero]
  intro a ha
  simp only [escape_tokens] at ha
  rw [escape_tokens_list_eq_single_pass] at ha
  rcases mem_escape_single_pass ha with h1 | h1
  · subst h1; decide
  · have h2 := List.mem_of_mem_filter h1
    simp only [noPct, List.all_eq_true] at h
    have := h a h2
    simpa using this

theorem countPct_oper_lit (op : OpTag) (s : String)
    (h : COMPARE_OPERATORS op = some (.lit s)) : countPct s = 0 := by
  cases op with
  | eq => simp [COMPARE_OPERATORS] at h
  | gt =>
      simp [COMPARE_OPERATORS] at h
      subst h
      decide
  | unknownOp n => simp [COMPARE_OPERATORS] at h

theorem compile_grouping_goVals_countPct :
    ∀ (elems : List PyVal) (vs : List String),
      elems.all cleanPyVal = true →
      compile_grouping.goVals elems = .ok vs →
      (vs.map countPct).sum = 0 := by
  intro elems
  induction elems with
  | nil =>
      intro vs _ h
      simp only [compile_grouping.goVals] at h
      cases h
      rfl
  | cons e rest ih =>
      intro vs hcl h
      simp only [List.all_cons, Bool.and_eq_true] at hcl
      simp only [compile_grouping.goVals] at h
      by_cases hg : groupable e = true
      · rw [if_pos hg] at h
        cases hr : compile_grouping.goVals rest with
        | error err => rw [hr] at h; simp [Bind.bind, Except.bind] at h
        | ok vs' =>
            rw [hr] at h
            simp only [Bind.bind, Except.bind] at h
            cases h
            have hsum := ih vs' hcl.2 hr
            simp only [List.map_cons, List.sum_cons, hsum, Nat.add_zero]
            cases e with
            | str s =>
                have : noPct s = true := hcl.1
                simp only [render_scalar]
                rw [countPct_append, countPct_append]
                rw [countPct_eq_zero_of_noPct s this]
                decide
            | int i =>
                have : noPct (toString i) = true := hcl.1
                simpa [render_scalar] using countPct_eq_zero_of_noPct _ this
            | bool b => cases b <;> decide
            | regex p => simp [groupable] at hg
            | zdbLiteral l => simp [groupable] at hg
            | tableRef t => simp [groupable] at hg
            | declMeta t => simp [groupable] at hg
            | noneVal => simp [groupable] at hg
      · rw [if_neg hg] at h
        cases h

theorem compile_grouping_countPct (elems : List PyVal) (g : String)
    (hcl : elems.all cleanPyVal = true)
    (h : compile_grouping elems = .ok g) : countPct g = 0 := by
  unfold compile_grouping at h
  cases hv : compile_grouping.goVals elems with
  | error e => rw [hv] at h; simp [Bind.bind, Except.bind] at h
  | ok vs =>
      rw [hv] at h
      simp only [Bind.bind, Except.bind] at h
      cases h
      rw [countPct_append, countPct_append]
      rw [countPct_intercalate "," (by decide) vs]
      rw [compile_grouping_goVals_countPct elems vs hcl hv]
      decide

theorem compile_clause_format_align :
    ∀ (c : Clause) (π : ProcessFn) (st : CState),
      ∀ (t : String) (st' : CState), cleanClause c = true →
        compile_clause c π st = .ok (t, st') →
        ∃ new, st'.format_args = st.format_args ++ new ∧
          countPct t = 2 * new.length := by
  refine compile_clause.induct
    (fun cs π st => ∀ (ts : List String) (st' : CState),
      cleanClause.goClean cs = true →
      compile_clause.goList cs π st = .ok (ts, st') →
      ∃ new, st'.format_args = st.format_args ++ new ∧
        (ts.map countPct).sum = 2 * new.length)
    (fun c π st => ∀ (t : String) (st' : CState), cleanClause c = true →
      compile_clause c π st = .ok (t, st') →
      ∃ new, st'.format_args = st.format_args ++ new ∧
        countPct t = 2 * new.length)
    ?_ ?_ ?_ ?_ ?_ ?_ ?_ ?_ ?_ ?_ ?_ ?_ ?_ ?_ ?_ ?_ ?_ ?_ ?_ ?_ ?_
  -- bindParam str
  · intro π st s t st' hcl h
    simp only [compile_clause, Except.ok.injEq, Prod.mk.injEq] at h
    obtain ⟨rfl, rfl⟩ := h
    have hnp : noPct s = true := by simpa [cleanClause] using hcl
    refine ⟨[], by simp, ?_⟩
    rw [countPct_append, countPct_append, countPct_escape_tokens s hnp]
    decide
  -- bindParam regex
  · intro π st p t st' hcl h
    simp only [compile_clause, Except.ok.injEq, Prod.mk.injEq] at h
    obtain ⟨rfl, rfl⟩ := h
    have hnp : noPct p = true := by simpa [cleanClause] using hcl
    refine ⟨[], by simp, ?_⟩
    rw [countPct_append, countPct_append, countPct_eq_zero_of_noPct p hnp]
    decide
  -- bindParam zdbLiteral
  · intro π st l t st' hcl h
    simp only [compile_clause, Except.ok.injEq, Prod.mk.injEq] at h
    obtain ⟨rfl, rfl⟩ := h
    have hnp : noPct l = true := by simpa [cleanClause] using hcl
    exact ⟨[], by simp, by simp [countPct_eq_zero_of_noPct l hnp]⟩
  -- bindParam int
  · intro π st i t st' hcl h
    simp only [compile_clause, Except.ok.injEq, Prod.mk.injEq] at h
    obtain ⟨rfl, rfl⟩ := h
    have hnp : noPct (toString i) = true := by simpa [cleanClause] using hcl
    exact ⟨[], by simp, by simp [countPct_eq_zero_of_noPct _ hnp]⟩
  -- bindParam bool
  · intro π st b t st' hcl h
    simp only [compile_clause, Except.ok.injEq, Prod.mk.injEq] at h
    obtain ⟨rfl, rfl⟩ := h
    refine ⟨[], by simp, ?_⟩
    cases b <;> decide
  -- bindParam other
  · intro π st value h1 h2 h3 h4 h5 t st' hcl h
    cases value with
    | str s => exact absurd rfl (h1 s)
    | regex p => exact absurd rfl (h2 p)
    | zdbLiteral l => exact absurd rfl (h3 l)
    | int i => exact absurd rfl (h4 i)
    | bool b => exact absurd rfl (h5 b)
    | tableRef tn => simp [compile_clause] at h
    | declMeta tn => simp [compile_clause] at h
    | noneVal => simp [compile_clause] at h
  -- true_
  · intro π st t st' hcl h
    simp only [compile_clause, Except.ok.injEq, Prod.mk.injEq] at h
    obtain ⟨rfl, rfl⟩ := h
    exact ⟨[], by simp, by decide⟩
  -- false_
  · intro π st t st' hcl h
    simp only [compile_clause, Except.ok.injEq, Prod.mk.injEq] at h
    obtain ⟨rfl, rfl⟩ := h
    exact ⟨[], by simp, by decide⟩
  -- textClause
  · intro π st tx t st' hcl h
    simp only [compile_clause, Except.ok.injEq, Prod.mk.injEq] at h
    obtain ⟨rfl, rfl⟩ := h
    have hnp : noPct tx = true := by simpa [cleanClause] using hcl
    exact ⟨[], by simp, by simp [countPct_eq_zero_of_noPct tx hnp]⟩
  -- binary, left not annotated
  · intro π st left la op right hla t st' hcl h
    simp only [compile_clause] at h
    rw [if_pos hla] at h
    cases h
  -- binary, operator unmapped
  · intro π st left la op right hla hop t st' hcl h
    simp only [compile_clause] at h
    rw [if_neg hla, hop] at h
    cases h
  -- binary, literal operator entry
  · intro π st left la op right hla st1 s hop ih t st' hcl h
    simp only [cleanClause, Bool.and_eq_true] at hcl
    simp only [compile_clause] at h
    rw [if_neg hla, hop] at h
    cases hr : compile_clause right π (st.addTable left.table) with
    | error e => rw [hr] at h; simp [Bind.bind, Except.bind] at h
    | ok p =>
        obtain ⟨r, st2⟩ := p
        rw [hr] at h
        simp only [Bind.bind, Except.bind, Except.ok.injEq, Prod.mk.injEq] at h
        obtain ⟨rfl, rfl⟩ := h
        obtain ⟨new, hargs, hcnt⟩ := ih r st2 hcl.2 hr
        refine ⟨new, ?_, ?_⟩
        · rw [hargs, CState.addTable_format_args]
        · rw [countPct_append, countPct_append, hcnt,
            countPct_eq_zero_of_noPct _ hcl.1, countPct_oper_lit op s hop]
          omega
  -- binary, fnEq with string right
  · intro π st left la op hla sv hop t st' hcl h
    simp only [cleanClause, Bool.and_eq_true] at hcl
    simp only [compile_clause] at h
    rw [if_neg hla, hop] at h
    simp only [Except.ok.injEq, Prod.mk.injEq] at h
    obtain ⟨rfl, rfl⟩ := h
    have hnp : noPct sv = true := by simpa [cleanClause] using hcl.2
    refine ⟨[], by simp [CState.addTable_format_args], ?_⟩
    rw [countPct_append, countPct_append, countPct_append, countPct_append,
      countPct_eq_zero_of_noPct _ hcl.1, countPct_eq_zero_of_noPct _ hnp]
    decide
  -- binary, fnEq with non-string right
  · intro π st left la op right hla st1 hne hop ih t st' hcl h
    simp only [cleanClause, Bool.and_eq_true] at hcl
    simp only [compile_clause] at h
    rw [if_neg hla, hop] at h
    have h2 : (do
        let (r, st2) ← compile_clause right π (st.addTable left.table)
        Except.ok ("(" ++ left.name ++ "=" ++ r ++ ")", st2) :
          Except String (String × CState)) = Except.ok (t, st') := h
    clear h
    cases hr : compile_clause right π (st.addTable left.table) with
    | error e => rw [hr] at h2; simp [Bind.bind, Except.bind] at h2
    | ok p =>
        obtain ⟨r, st2⟩ := p
        rw [hr] at h2
        simp only [Bind.bind, Except.bind, Except.ok.injEq, Prod.mk.injEq] at h2
        obtain ⟨rfl, rfl⟩ := h2
        obtain ⟨new, hargs, hcnt⟩ := ih r st2 hcl.2 hr
        refine ⟨new, ?_, ?_⟩
        · rw [hargs, CState.addTable_format_args]
        · simp only [countPct_append]
          rw [hcnt, countPct_eq_zero_of_noPct _ hcl.1]
          have hp1 : countPct "(" = 0 := by decide
          have hp2 : countPct "=" = 0 := by decide
          have hp3 : countPct ")" = 0 := by decide
          omega
  -- booleanList
  · intro π st op cs ih t st' hcl h
    simp only [cleanClause] at hcl
    simp only [compile_clause] at h
    cases hg : compile_clause.goList cs π st with
    | error e => rw [hg] at h; simp [Bind.bind, Except.bind] at h
    | ok p =>
        obtain ⟨texts, st2⟩ := p
        rw [hg] at h
        simp only [Bind.bind, Except.bind] at h
        obtain ⟨new, hargs, hsum⟩ := ih texts st2 hcl hg
        cases op with
        | and_ =>
            simp only [Except.ok.injEq, Prod.mk.injEq] at h
            obtain ⟨rfl, rfl⟩ := h
            refine ⟨new, hargs, ?_⟩
            rw [countPct_append, countPct_append,
              countPct_intercalate " and " (by decide) texts, hsum]
            have hp1 : countPct "(" = 0 := by decide
            have hp2 : countPct ")" = 0 := by decide
            omega
        | or_ =>
            simp only [Except.ok.injEq, Prod.mk.injEq] at h
            obtain ⟨rfl, rfl⟩ := h
            refine ⟨new, hargs, ?_⟩
            rw [countPct_append, countPct_append,
              countPct_intercalate " or " (by decide) texts, hsum]
            have hp1 : countPct "(" = 0 := by decide
            have hp2 : countPct ")" = 0 := by decide
            omega
        | otherOp => cases h
  -- column
  · intro π st col annotated t st' hcl h
    simp only [compile_clause, compile_column_clause, Except.ok.injEq,
      Prod.mk.injEq] at h
    obtain ⟨rfl, rfl⟩ := h
    exact ⟨["replace(" ++ π col ++ ", " ++ apos ++ "\"" ++ apos ++ ", " ++
      apos ++ apos ++ ")"], rfl, by rw [List.length_singleton]; decide⟩
  -- grouping
  · intro π st elems t st' hcl h
    simp only [cleanClause] at hcl
    simp only [compile_clause] at h
    cases hg : compile_grouping elems with
    | error e => rw [hg] at h; simp [Bind.bind, Except.bind] at h
    | ok g =>
        rw [hg] at h
        simp only [Bind.bind, Except.bind, Except.ok.injEq, Prod.mk.injEq] at h
        obtain ⟨rfl, rfl⟩ := h
        exact ⟨[], by simp, by simp [compile_grouping_countPct elems _ hcl hg]⟩
  -- null
  · intro π st t st' hcl h
    simp only [compile_clause, Except.ok.injEq, Prod.mk.injEq] at h
    obtain ⟨rfl, rfl⟩ := h
    exact ⟨[], by simp, by decide⟩
  -- zdbTable
  · intro π st tn t st' hcl h
    simp only [compile_clause, Except.ok.injEq, Prod.mk.injEq] at h
    obtain ⟨rfl, rfl⟩ := h
    have hnp : noPct tn = true := by simpa [cleanClause] using hcl
    exact ⟨[], by simp, by simp [countPct_eq_zero_of_noPct tn hnp]⟩
  -- goList nil
  · intro π st ts st' hcl h
    simp only [compile_clause.goList, Except.ok.injEq, Prod.mk.injEq] at h
    obtain ⟨rfl, rfl⟩ := h
    exact ⟨[], by simp, rfl⟩
  -- goList cons
  · intro c rest π st ihc ihrest ts st' hcl h
    simp only [cleanClause.goClean, Bool.and_eq_true] at hcl
    simp only [compile_clause.goList] at h
    cases hc : compile_clause c π st with
    | error e => rw [hc] at h; simp [Bind.bind, Except.bind] at h
    | ok p =>
        obtain ⟨t0, st2⟩ := p
        rw [hc] at h
        simp only [Bind.bind, Except.bind] at h
        cases hr : compile_clause.goList rest π st2 with
        | error e => rw [hr] at h; simp at h
        | ok q =>
            obtain ⟨ts', st3⟩ := q
            rw [hr] at h
            simp only [Except.ok.injEq, Prod.mk.injEq] at h
            obtain ⟨rfl, rfl⟩ := h
            obtain ⟨new1, hargs1, hcnt1⟩ := ihc t0 st2 hcl.1 hc
            obtain ⟨new2, hargs2, hcnt2⟩ := ihrest st2 ts' st3 hcl.2 hr
            refine ⟨new1 ++ new2, ?_, ?_⟩
            · rw [hargs2, hargs1, List.append_assoc]
            · simp only [List.map_cons, List.sum_cons, hcnt1, hcnt2,
                List.length_append]
              ring

theorem goList_append :
    ∀ (cs1 cs2 : List Clause) (π : ProcessFn) (st : CState)
      (ts : List String) (st' : CState),
      compile_clause.goList (cs1 ++ cs2) π st = .ok (ts, st') ↔
        ∃ ts1 stm ts2, compile_clause.goList cs1 π st = .ok (ts1, stm) ∧
          compile_clause.goList cs2 π stm = .ok (ts2, st') ∧ ts = ts1 ++ ts2 := by
  intro cs1
  induction cs1 with
  | nil =>
      intro cs2 π st ts st'
      constructor
      · intro h
        exact ⟨[], st, ts, rfl, h, rfl⟩
      · intro ⟨ts1, stm, ts2, h1, h2, h3⟩
        simp only [compile_clause.goList, Except.ok.injEq, Prod.mk.injEq] at h1
        obtain ⟨rfl, rfl⟩ := h1
        subst h3
        simpa using h2
  | cons c rest ih =>
      intro cs2 π st ts st'
      constructor
      · intro h
        simp only [List.cons_append, compile_clause.goList, List.append_eq] at h
        cases hc : compile_clause c π st with
        | error e => rw [hc] at h; simp [Bind.bind, Except.bind] at h
        | ok p =>
            obtain ⟨t0, st2⟩ := p
            rw [hc] at h
            simp only [Bind.bind, Except.bind] at h
            cases hr : compile_clause.goList (rest ++ cs2) π st2 with
            | error e => rw [hr] at h; simp at h
            | ok q =>
                obtain ⟨tsr, st3⟩ := q
                rw [hr] at h
                simp only [Except.ok.injEq, Prod.mk.injEq] at h
                obtain ⟨rfl, rfl⟩ := h
                obtain ⟨ts1, stm, ts2, h1, h2, h3⟩ := (ih cs2 π st2 tsr st3).mp hr
                refine ⟨t0 :: ts1, stm, ts2, ?_, h2, by rw [h3]; rfl⟩
                simp only [compile_clause.goList, hc, Bind.bind, Except.bind, h1]
      · intro ⟨ts1, stm, ts2, h1, h2, h3⟩
        simp only [compile_clause.goList] at h1
        cases hc : compile_clause c π st with
        | error e => rw [hc] at h1; simp [Bind.bind, Except.bind] at h1
        | ok p =>
            obtain ⟨t0, st2⟩ := p
            rw [hc] at h1
            simp only [Bind.bind, Except.bind] at h1
            cases hr : compile_clause.goList rest π st2 with
            | error e => rw [hr] at h1; simp at h1
            | ok q =>
                obtain ⟨tsr, st3⟩ := q
                rw [hr] at h1
                simp only [Except.ok.injEq, Prod.mk.injEq] at h1
                obtain ⟨rfl, rfl⟩ := h1
                subst h3
                simp only [List.cons_append, compile_clause.goList, hc,
                  Bind.bind, Except.bind, List.append_eq]
                have hcomb := (ih cs2 π st2 (tsr ++ ts2) st').mpr
                  ⟨tsr, st3, ts2, hr, h2, rfl⟩
                rw [hcomb]

theorem zdb_query_loop_format_align :
    ∀ (cs : List Clause) (π : ProcessFn) (i : Nat) (query : List String)
      (st : CState) (q : List String) (st' : CState),
      (∀ c ∈ cs, cleanClause c = true) →
      zdb_query_loop π i cs query st = .ok (q, st') →
      ∃ newq newargs, q = query ++ newq ∧
        st'.format_args = st.format_args ++ newargs ∧
        (newq.map countPct).sum = 2 * newargs.length := by
  intro cs
  induction cs with
  | nil =>
      intro π i query st q st' _ h
      simp only [zdb_query_loop, Except.ok.injEq, Prod.mk.injEq] at h
      obtain ⟨rfl, rfl⟩ := h
      exact ⟨[], [], by simp, by simp, rfl⟩
  | cons c rest ih =>
      intro π i query st q st' hcl h
      have hclc : cleanClause c = true := hcl c (List.mem_cons_self _ _)
      have hclr : ∀ x ∈ rest, cleanClause x = true :=
        fun x hx => hcl x (List.mem_cons_of_mem _ hx)
      cases c with
      | binary left la op right =>
          have hgen : zdb_query_loop π i (Clause.binary left la op right :: rest) query st =
              (do
                let (t, st2) ← compile_clause (.binary left la op right) π
                  (st.addTable left.table)
                zdb_query_loop π (i+1) rest (query ++ [t]) st2) := rfl
          rw [hgen] at h
          cases hc : compile_clause (.binary left la op right) π (st.addTable left.table) with
          | error e => rw [hc] at h; simp [Bind.bind, Except.bind] at h
          | ok p =>
              obtain ⟨t0, st2⟩ := p
              rw [hc] at h
              simp only [Bind.bind, Except.bind] at h
              obtain ⟨new1, hargs1, hcnt1⟩ :=
                compile_clause_format_align _ π _ t0 st2 hclc hc
              rw [CState.addTable_format_args] at hargs1
              obtain ⟨newq, newargs, hq, hargs2, hsum⟩ :=
                ih π (i+1) (query ++ [t0]) st2 q st' hclr h
              refine ⟨t0 :: newq, new1 ++ newargs, ?_, ?_, ?_⟩
              · rw [hq, List.append_assoc, List.singleton_append]
              · rw [hargs2, hargs1, List.append_assoc]
              · simp only [List.map_cons, List.sum_cons, hcnt1, hsum,
                  List.length_append]
                ring
      | bindParam v =>
          by_cases htr : ∃ tn, v = PyVal.tableRef tn
          · obtain ⟨tn, rfl⟩ := htr
            have hgen : zdb_query_loop π i (Clause.bindParam (.tableRef tn) :: rest) query st =
                (if i > 0 then .error "Table can be specified only as first param"
                 else zdb_query_loop π (i+1) rest query (st.addTable tn)) := rfl
            rw [hgen] at h
            by_cases hi : i > 0
            · rw [if_pos hi] at h; cases h
            · rw [if_neg hi] at h
              obtain ⟨newq, newargs, hq, hargs, hsum⟩ :=
                ih π (i+1) query (st.addTable tn) q st' hclr h
              rw [CState.addTable_format_args] at hargs
              exact ⟨newq, newargs, hq, hargs, hsum⟩
          · have hgen : zdb_query_loop π i (Clause.bindParam v :: rest) query st =
                (do
                  let (t, st2) ← compile_clause (.bindParam v) π st
                  zdb_query_loop π (i+1) rest (query ++ [t]) st2) := by
              cases v with
              | tableRef tn => exact absurd ⟨tn, rfl⟩ htr
              | str s => rfl
              | int n => rfl
              | bool b => rfl
              | regex p => rfl
              | zdbLiteral l => rfl
              | declMeta tn => rfl
              | noneVal => rfl
            rw [hgen] at h
            cases hc : compile_clause (.bindParam v) π st with
            | error e => rw [hc] at h; simp [Bind.bind, Except.bind] at h
            | ok p =>
                obtain ⟨t0, st2⟩ := p
                rw [hc] at h
                simp only [Bind.bind, Except.bind] at h
                obtain ⟨new1, hargs1, hcnt1⟩ :=
                  compile_clause_format_align _ π _ t0 st2 hclc hc
                obtain ⟨newq, newargs, hq, hargs2, hsum⟩ :=
                  ih π (i+1) (query ++ [t0]) st2 q st' hclr h
                refine ⟨t0 :: newq, new1 ++ newargs, ?_, ?_, ?_⟩
                · rw [hq, List.append_assoc, List.singleton_append]
                · rw [hargs2, hargs1, List.append_assoc]
                · simp only [List.map_cons, List.sum_cons, hcnt1, hsum,
                    List.length_append]
                  ring
      | booleanList op2 cs2 =>
          have hgen : zdb_query_loop π i (Clause.booleanList op2 cs2 :: rest) query st =
              (do
                let (t, st2) ← compile_clause (.booleanList op2 cs2) π st
                zdb_query_loop π (i+1) rest (query ++ [t]) st2) := rfl
          rw [hgen] at h
          cases hc : compile_clause (.booleanList op2 cs2) π st with
          | error e => rw [hc] at h; simp [Bind.bind, Except.bind] at h
          | ok p =>
              obtain ⟨t0, st2⟩ := p
              rw [hc] at h
              simp only [Bind.bind, Except.bind] at h
              obtain ⟨new1, hargs1, hcnt1⟩ :=
                compile_clause_format_align _ π _ t0 st2 hclc hc
              obtain ⟨newq, newargs, hq, hargs2, hsum⟩ :=
                ih π (i+1) (query ++ [t0]) st2 q st' hclr h
              refine ⟨t0 :: newq, new1 ++ newargs, ?_, ?_, ?_⟩
              · rw [hq, List.append_assoc, List.singleton_append]
              · rw [hargs2, hargs1, List.append_assoc]
              · simp only [List.map_cons, List.sum_cons, hcnt1, hsum,
                  List.length_append]
                ring
      | column col an =>
          have hgen : zdb_query_loop π i (Clause.column col an :: rest) query st =
              (do
                let (t, st2) ← compile_clause (.column col an) π st
                zdb_query_loop π (i+1) rest (query ++ [t]) st2) := rfl
          rw [hgen] at h
          cases hc : compile_clause (.column col an) π st with
          | error e => rw [hc] at h; simp [Bind.bind, Except.bind] at h
          | ok p =>
              obtain ⟨t0, st2⟩ := p
              rw [hc] at h
              simp only [Bind.bind, Except.bind] at h
              obtain ⟨new1, hargs1, hcnt1⟩ :=
                compile_clause_format_align _ π _ t0 st2 hclc hc
              obtain ⟨newq, newargs, hq, hargs2, hsum⟩ :=
                ih π (i+1) (query ++ [t0]) st2 q st' hclr h
              refine ⟨t0 :: newq, new1 ++ newargs, ?_, ?_, ?_⟩
              · rw [hq, List.append_assoc, List.singleton_append]
              · rw [hargs2, hargs1, List.append_assoc]
              · simp only [List.map_cons, List.sum_cons, hcnt1, hsum,
                  List.length_append]
                ring
      | true_ => cases h
      | false_ => cases h
      | textClause tx => cases h
      | grouping es => cases h
      | null => cases h
      | zdbTable tn => cases h

/-- C9: children of a boolean combination and top-level clauses are rendered
sequentially in input order (the clause-list renderer decomposes over list
concatenation, threading the state left to right), and the format-argument
list grows append-only in that same order, with every rendered text holding
exactly two percent characters (one `"%%s"` placeholder) per argument it
appended — so over percent-clean trees the i-th format argument lines up with
the i-th placeholder of the joined filter text. -/
theorem zdb_format_args_align :
    (∀ (cs1 cs2 : List Clause) (π : ProcessFn) (st : CState)
      (ts : List String) (st' : CState),
      compile_clause.goList (cs1 ++ cs2) π st = .ok (ts, st') ↔
        ∃ ts1 stm ts2, compile_clause.goList cs1 π st = .ok (ts1, stm) ∧
          compile_clause.goList cs2 π stm = .ok (ts2, st') ∧ ts = ts1 ++ ts2) ∧
    (∀ (c : Clause) (π : ProcessFn) (st : CState) (t : String) (st' : CState),
      cleanClause c = true → compile_clause c π st = .ok (t, st') →
      ∃ new, st'.format_args = st.format_args ++ new ∧
        countPct t = 2 * new.length) ∧
    (∀ (element : ZdbRaw) (π : ProcessFn) (q : List String) (st' : CState),
      (∀ c ∈ element.clauses, cleanClause c = true) →
      zdb_query_loop π 0 element.clauses [] ⟨[], []⟩ = .ok (q, st') →
      countPct (String.intercalate " and " q) = 2 * st'.format_args.length) := by
  refine ⟨goList_append, compile_clause_format_align, ?_⟩
  intro element π q st' hcl h
  obtain ⟨newq, newargs, hq, hargs, hsum⟩ :=
    zdb_query_loop_format_align element.clauses π 0 [] ⟨[], []⟩ q st' hcl h
  rw [countPct_intercalate " and " (by decide) q, hq]
  simp only [List.nil_append] at *
  rw [hargs, hsum]

/-- Witness for C9 at a concrete raw query with one deferred column
parameter: the joined filter text has one placeholder (two percent
characters) and exactly one format argument. -/
theorem zdb_format_args_align_witness :
    countPct (String.intercalate " and " ["\"%%s\""]) =
      2 * (CState.mk ["posts"] ["replace(posts.title, " ++ apos ++ "\"" ++
        apos ++ ", " ++ apos ++ apos ++ ")"]).format_args.length :=
  zdb_format_args_align.2.2
    ⟨[.bindParam (.tableRef "posts"), .column ⟨"posts", "title"⟩ false],
      none, .int 0, .int 0⟩ procQualified ["\"%%s\""]
    ⟨["posts"], ["replace(posts.title, " ++ apos ++ "\"" ++ apos ++ ", " ++
      apos ++ apos ++ ")"]⟩
    (by decide) rfl
